import Mathlib

/-!
Shallow embedding of src/master/buildbot/process/build.py (class Build):
result merging (stepDone), lock acquisition (acquireLocks), step scheduling
(getNextStep, the step runner, processStepsInParallel), interruption
handling (lostRemote, stopBuild), and lifecycle finalisation (startBuild
failure path, buildFinished). Logging calls (log.msg, log.err) are elided
throughout; externally visible side effects are recorded as event lists.
-/

namespace CommonBuildbot

/-- Result codes SUCCESS, WARNINGS, FAILURE, SKIPPED, EXCEPTION, RETRY.
build.py imports them from buildbot.status.results, which is not part of
this repository; the set itself is fixed by the spec data model (spec 3). -/
inductive ResultCode where
  | SUCCESS
  | WARNINGS
  | FAILURE
  | SKIPPED
  | EXCEPTION
  | RETRY
deriving DecidableEq

/-- Modelled from the spec: severity rank of a result code under the total
order SUCCESS < WARNINGS < FAILURE < EXCEPTION = RETRY used for worst-of
merging (spec 4.4, where EXCEPTION and RETRY are both terminal-severity).
SKIPPED never participates in the merge, so its rank is immaterial; it is
placed lowest. The concrete function worst_status lives in
buildbot.status.results, which is absent from this repository. -/
def severity : ResultCode → Nat
  | ResultCode.SUCCESS => 0
  | ResultCode.SKIPPED => 0
  | ResultCode.WARNINGS => 1
  | ResultCode.FAILURE => 2
  | ResultCode.EXCEPTION => 3
  | ResultCode.RETRY => 3

/-- Modelled from the spec: worst_status returns the worse of the two codes
under the severity order of spec 4.4; on equal severity the running value
is kept. -/
def worst_status (a b : ResultCode) : ResultCode :=
  if severity a < severity b then b else a

/-- One build step, reduced to the per-step policy flags and readiness
predicate that build.py reads (spec 3, Step). The id stands for object
identity, used by list membership and removal in the source. -/
structure Step where
  id : Nat
  flunkOnFailure : Bool
  warnOnFailure : Bool
  warnOnWarnings : Bool
  flunkOnWarnings : Bool
  haltOnFailure : Bool
  alwaysRun : Bool
  isReady : Bool
deriving DecidableEq

/-- The dynamically typed results attribute of Build: None at class level,
a per-step list after setupBuild (line 409), a single overall code after
buildFinished (line 702). -/
inductive ResultsAttr where
  | unset
  | perStep (l : List ResultCode)
  | overall (r : ResultCode)
deriving DecidableEq

/-- The mutable Build state that the embedded methods read and write.
remote is true while a worker connection is bound (self.remote is not
None); acquiringLock records a pending lock wait (self._acquiringLock). -/
structure Build where
  steps : List Step
  currentSteps : List Step
  results : ResultsAttr
  result : ResultCode
  text : List String
  terminate : Bool
  stopped : Bool
  finished : Bool
  remote : Bool
  acquiringLock : Option Nat
deriving DecidableEq

/-- The source appends the step result to self.results with list append
(line 584). After buildFinished rebinds results to a single code, an
append would be a runtime type error in Python; that unreachable case is
modelled as the identity. -/
def appendStepResult : ResultsAttr → ResultCode → ResultsAttr
  | ResultsAttr.perStep l, r => ResultsAttr.perStep (l ++ [r])
  | a, _ => a

/-- Candidate overall result computed by Build.stepDone, lines 592-608
(the possible_overall_result local, before the SKIPPED guard and merge). -/
def possibleOverallResult (res : ResultCode) (step : Step) : ResultCode :=
  if res = ResultCode.FAILURE then
    let p := if ¬ step.flunkOnFailure then ResultCode.SUCCESS else res
    let p := if step.warnOnFailure then ResultCode.WARNINGS else p
    if step.flunkOnFailure then ResultCode.FAILURE else p
  else if res = ResultCode.WARNINGS then
    let p := if ¬ step.warnOnWarnings then ResultCode.SUCCESS else ResultCode.WARNINGS
    if step.flunkOnWarnings then ResultCode.FAILURE else p
  else res

/-- Termination flag computed by Build.stepDone: initially false, set when
the remote is gone (line 587), by haltOnFailure on a FAILURE (line 600),
and unconditionally on EXCEPTION or RETRY (line 609). -/
def stepDoneTerminate (remote : Bool) (res : ResultCode) (step : Step) : Bool :=
  let terminate := !remote
  if res = ResultCode.FAILURE then terminate || step.haltOnFailure
  else if res = ResultCode.EXCEPTION ∨ res = ResultCode.RETRY then true
  else terminate

/-- Build.stepDone, lines 573-616: append the raw result, extend the text
when a nonempty text came with the result (the tuple case of line 580;
text is None or empty otherwise), merge the candidate into the overall
result unless the step was SKIPPED, and return the termination flag.
The write of step._completionResult (line 590) is elided: no embedded
code reads it. -/
def stepDone (b : Build) (res : ResultCode) (txt : List String) (step : Step) : Build × Bool :=
  let b1 := { b with results := appendStepResult b.results res,
                     text := if txt ≠ [] then b.text ++ txt else b.text }
  let b2 := if res ≠ ResultCode.SKIPPED
            then { b1 with result := worst_status b1.result (possibleOverallResult res step) }
            else b1
  (b2, stepDoneTerminate b.remote res step)

/-- One completed step handed to stepDone: its raw result, text fragments
and the step object itself. -/
structure Completion where
  res : ResultCode
  txt : List String
  step : Step

/-- Successive stepDone calls on a sequence of completions, keeping the
evolving Build state (the merging loop of the sequential scheduler). -/
def runStepsDone (b : Build) : List Completion → Build
  | [] => b
  | c :: cs => runStepsDone (stepDone b c.res c.txt c.step).1 cs

/-- The merged candidates of a completion sequence: the candidate of every
non-SKIPPED completion, in order (SKIPPED completions are excluded from
the merge by line 613). -/
def mergedCandidates : List Completion → List ResultCode
  | [] => []
  | c :: cs =>
    if c.res ≠ ResultCode.SKIPPED
    then possibleOverallResult c.res c.step :: mergedCandidates cs
    else mergedCandidates cs

/-- Identity of a lock; the source carries (lock, access) pairs, and every
query and claim below is for this build at the declared access mode, so a
pair is represented by one identifier. -/
abbrev LockId := Nat

/-- The scan of Build.acquireLocks lines 306-312: the first declared lock
that is not available to this build, if any. -/
def firstUnavailable (avail : LockId → Bool) : List LockId → Option LockId
  | [] => none
  | l :: ls => if avail l then firstUnavailable avail ls else some l

/-- How one invocation of Build.acquireLocks returned. -/
inductive AcquireOutcome where
  | noLocks
  | stoppedReturn
  | claimedAll
  | waitingOn (l : LockId)
deriving DecidableEq

/-- One invocation of Build.acquireLocks, lines 299-316, against a fixed
availability snapshot: return the locks claimed by this invocation and how
it returned. Empty lock list and a set stopped flag return at once with
nothing claimed (lines 301-304); a scan that finds an unavailable lock
registers a wait and returns with nothing claimed (lines 306-312); a scan
that finds every lock available claims them all in the same invocation,
with no suspension point in between (lines 313-315). -/
def acquireLocksOnce (avail : LockId → Bool) (stopped : Bool) (locks : List LockId) :
    List LockId × AcquireOutcome :=
  if locks.isEmpty then ([], AcquireOutcome.noLocks)
  else if stopped then ([], AcquireOutcome.stoppedReturn)
  else
    match firstUnavailable avail locks with
    | some l => ([], AcquireOutcome.waitingOn l)
    | none => (locks, AcquireOutcome.claimedAll)

/-- The full retry protocol of Build.acquireLocks: each wait suspends until
the lock signals, then acquireLocks is re-invoked (line 310) and re-scans
from the beginning of the list. Round n sees availability avail n and
stopped flag stopped n; fuel bounds the number of invocations, and the
returned value is the claimed set together with the round at which the
chain returned (none while still waiting when fuel runs out). -/
def acquireLocksRun (avail : Nat → LockId → Bool) (stopped : Nat → Bool)
    (locks : List LockId) : Nat → Nat → Option (List LockId × Nat)
  | _, 0 => none
  | round, fuel + 1 =>
    match acquireLocksOnce (avail round) (stopped round) locks with
    | (_, AcquireOutcome.waitingOn _) => acquireLocksRun avail stopped locks (round + 1) fuel
    | (claimed, _) => some (claimed, round)

/-- The internal control signals BuildFailed and BuildStop, lines 40-44. -/
inductive BuildSignal where
  | buildFailed
  | buildStop
deriving DecidableEq

/-- The drain loop of Build.getNextStep lines 563-569: pop steps off the
queue until an alwaysRun step is found (returned together with the rest of
the queue) or the queue is exhausted. The isReady assertion of line 565 is
elided (an assertion, not control flow). -/
def drainForAlwaysRun : List Step → Option Step × List Step
  | [] => (none, [])
  | s :: rest => if s.alwaysRun then (some s, rest) else drainForAlwaysRun rest

/-- Build.getNextStep, lines 553-571: next step of the sequential scheduler
together with the updated queue. Empty queue or lost remote end the build;
while terminate or stopped is set the queue is drained for alwaysRun steps;
otherwise the head of the queue is popped. -/
def getNextStep (b : Build) : Option Step × Build :=
  if b.steps.isEmpty then (none, b)
  else if !b.remote then (none, b)
  else if b.terminate || b.stopped then
    let p := drainForAlwaysRun b.steps
    (p.1, { b with steps := p.2 })
  else
    match b.steps with
    | [] => (none, b)
    | s :: rest => (some s, { b with steps := rest })

/-- The step runner Build._processStep, lines 538-551: raise BuildStop when
the build is stopped (before the step is started), otherwise start the step
(its completion res, txt is supplied by the environment), merge through
stepDone, set the terminate flag when asked, and drop the step from
currentSteps again. A returned ok value means the step was started and ran
to completion; the error value means it was never started. -/
def processStepOne (b : Build) (step : Step) (res : ResultCode) (txt : List String) :
    Except BuildSignal Build :=
  if b.stopped then Except.error BuildSignal.buildStop
  else
    let b1 := { b with currentSteps := b.currentSteps ++ [step] }
    let p := stepDone b1 res txt step
    let b2 := if p.2 then { p.1 with terminate := true } else p.1
    Except.ok { b2 with currentSteps := b2.currentSteps.erase step }

/-- Interrupt payloads handed to step.interrupt. -/
inductive InterruptReason where
  | stopReason (r : String)
  | connectionLost
deriving DecidableEq

/-- Externally visible side effects of the embedded methods. -/
inductive Event where
  | interruptStep (id : Nat) (reason : InterruptReason)
  | pointEvent (tag : String)
  | cancelLockWait (l : LockId)
  | releaseSlave
  | finishedSignal
  | buildStarted
  | lockAcquisitionStart
  | statusSetText (txt : List String)
  | statusSetResults (r : ResultCode)
  | statusFinished
  | releaseLocksCall
deriving DecidableEq

/-- Build.lostRemote, lines 618-636: the remote reference is dropped; with
steps currently executing, each gets an interrupt carrying a connection
lost failure; with none executing, the overall result becomes RETRY, the
text becomes the two lost-remote fragments (line 631 assigns self.text),
stopped is set, and a pending lock wait is cancelled. Firing the wait
deferred (line 636) synchronously re-enters acquireLocks, which clears the
pending-wait marker and returns because stopped is set; that is modelled by
clearing acquiringLock here. -/
def lostRemote (b : Build) : Build × List Event :=
  let b1 := { b with remote := false }
  if b1.currentSteps.length > 0 then
    (b1, b1.currentSteps.map (fun s => Event.interruptStep s.id InterruptReason.connectionLost))
  else
    let b2 := { b1 with result := ResultCode.RETRY, text := ["lost", "remote"], stopped := true }
    match b2.acquiringLock with
    | some l => ({ b2 with acquiringLock := none }, [Event.cancelLockWait l])
    | none => (b2, [])

/-- Build.stopBuild, lines 638-660: a no-op when the build is finished;
otherwise an interrupt point event is published, the build is marked
stopped, every currently executing step is sent an interrupt carrying the
stop reason, the overall result becomes EXCEPTION, and a pending lock wait
is cancelled. As in lostRemote, firing the wait deferred synchronously
re-enters acquireLocks, which clears the pending-wait marker and returns
because stopped is set; modelled by clearing acquiringLock here. -/
def stopBuild (b : Build) (reason : String) : Build × List Event :=
  if b.finished then (b, [])
  else
    let evs := Event.pointEvent "interrupt" ::
      b.currentSteps.map (fun s => Event.interruptStep s.id (InterruptReason.stopReason reason))
    let b1 := { b with stopped := true, result := ResultCode.EXCEPTION }
    match b1.acquiringLock with
    | some l => ({ b1 with acquiringLock := none }, evs ++ [Event.cancelLockWait l])
    | none => (b1, evs)

/-- Tail of Build.setupBuild, lines 409-411: initialise the per-step result
list, the overall result and the text fragments. Step construction from
factories, progress tracking and status publication (lines 373-407) are
calls into external collaborators and are elided. -/
def setupBuild (b : Build) : Build :=
  { b with results := ResultsAttr.perStep [],
           result := ResultCode.SUCCESS,
           text := [] }

/-- What Build.startBuild hands back: the Build state when the returned
deferred fires, the events dispatched up to and including that firing,
the locks claimed and the steps executed before the firing, and whether
the deferred errbacked. -/
structure StartResult where
  build : Build
  events : List Event
  claimedLocks : List LockId
  executedStepIds : List Nat
  errbacked : Bool
deriving DecidableEq

/-- Build.startBuild, lines 268-289 (the try block around setupBuild and
its except handler). When setupBuild raises: a point event is published,
the build is marked finished with results EXCEPTION, and the deferred is
fired immediately with the build itself, running the release-slave
callback already chained on it; no lock was acquired and no step executed,
and the deferred fires through its callback side (never errback), since
the except clause swallows the exception. When setupBuild returns
normally: buildStarted is published and lock acquisition begins; claiming
and step execution then continue asynchronously after startBuild returns,
outside this function. -/
def startBuild (setupRaises : Bool) (b : Build) : StartResult :=
  if setupRaises then
    { build := { b with finished := true, results := ResultsAttr.overall ResultCode.EXCEPTION },
      events := [Event.pointEvent "setupBuild exception", Event.releaseSlave,
                 Event.finishedSignal],
      claimedLocks := [],
      executedStepIds := [],
      errbacked := false }
  else
    { build := setupBuild b,
      events := [Event.buildStarted, Event.lockAcquisitionStart],
      claimedLocks := [],
      executedStepIds := [],
      errbacked := false }

/-- Build.buildFinished, lines 686-714: mark the build finished, drop the
remote, overwrite the results attribute with the single overall code, and
return the events of the current scheduling turn (status text, results and
finished publication, then the completion deferred firing) separately from
the events scheduled through eventually (the releaseLocks call of line
712). The setExpectations branch of lines 708-711 is progress bookkeeping
on an external collaborator and is elided. -/
def buildFinished (b : Build) (txt : List String) (r : ResultCode) :
    Build × List Event × List Event :=
  let b1 := { b with finished := true, remote := false,
                     results := ResultsAttr.overall r }
  (b1,
   [Event.statusSetText txt, Event.statusSetResults r, Event.statusFinished,
    Event.finishedSignal],
   [Event.releaseLocksCall])

/-- Modelled from the spec: an event scheduled through eventually runs in a
later scheduling turn, after every event of the current turn (spec 5 and
4.6, the deliberate yield between finished notification and lock release;
buildbot.util.eventual is not part of this repository). The observable
order is therefore the current-turn events followed by the eventual ones. -/
def buildFinishedTrace (b : Build) (txt : List String) (r : ResultCode) : List Event :=
  (buildFinished b txt r).2.1 ++ (buildFinished b txt r).2.2

/-- State of the ParallelStepsProcessor helper of processStepsInParallel:
the Build plus the launched list (launched_deferred_results is carried
implicitly: the completion value of a launched step comes from the outcome
oracle when the step completes). -/
structure ParState where
  build : Build
  launched : List Step
deriving DecidableEq

/-- ParallelStepsProcessor.getNextStep, lines 501-506: scan build.steps for
the first ready step, remove it from the queue and return it; with no
ready step, report whether the queue is empty (the Python True / False
return values). -/
inductive NextStep where
  | ready (s : Step)
  | queueEmpty
  | noneReady
deriving DecidableEq

/-- The scan itself (see NextStep). -/
def parallelGetNextStep (b : Build) : NextStep × Build :=
  match b.steps.find? (fun s => s.isReady) with
  | some s => (NextStep.ready s, { b with steps := b.steps.erase s })
  | none => (if b.steps.isEmpty then NextStep.queueEmpty else NextStep.noneReady, b)

/-- ParallelStepsProcessor.waitForOneStepCompletion, lines 487-499: the
pick index selects which in-flight step completes first (the DeferredList
first-to-fire index); that step is removed from launched and from
currentSteps, its completion (from the outcome oracle, keyed by step id)
is merged through stepDone, and on termination build.terminate is set.
The onCompletion hook call of line 496 is a call into the step object and
is elided. An out-of-range pick leaves the state unchanged (unreachable
for a valid completion oracle). -/
def psWaitForOne (outcome : Nat → ResultCode × List String) (pick : Nat)
    (st : ParState) : ParState × Bool :=
  match st.launched.get? pick with
  | none => (st, false)
  | some completedStep =>
    let launched2 := st.launched.take pick ++ st.launched.drop (pick + 1)
    let b := { st.build with currentSteps := st.build.currentSteps.erase completedStep }
    let oc := outcome completedStep.id
    let p := stepDone b oc.1 oc.2 completedStep
    let b2 := if p.2 then { p.1 with terminate := true } else p.1
    ({ build := b2, launched := launched2 }, p.2)

/-- The while loop of Build.processStepsInParallel, lines 522-533, driven
by fuel and by the list of completion picks. Each iteration asks
parallelGetNextStep; with an empty queue and nothing in flight the loop
breaks; launching a step first raises BuildStop when the build is stopped
(ParallelStepsProcessor.launch, lines 478-485), then appends the step to
currentSteps and launched; a wait happens exactly when the in-flight count
reached maxCount or no step could be launched this iteration, and a wait
whose merge signals termination breaks the loop. The returned value keeps
the final helper state and how the loop ended; none means fuel or the
pick oracle ran out. -/
def parallelLoop (outcome : Nat → ResultCode × List String) (maxCount : Nat) :
    Nat → List Nat → ParState → Option (ParState × Except BuildSignal Unit)
  | 0, _, _ => none
  | fuel + 1, picks, st =>
    match parallelGetNextStep st.build with
    | (NextStep.queueEmpty, b2) =>
      let st2 := { st with build := b2 }
      if st2.launched.length = 0 then some (st2, Except.ok ())
      else
        match picks with
        | [] => none
        | p :: ps =>
          let w := psWaitForOne outcome p st2
          if w.2 then some (w.1, Except.ok ())
          else parallelLoop outcome maxCount fuel ps w.1
    | (NextStep.noneReady, b2) =>
      let st2 := { st with build := b2 }
      match picks with
      | [] => none
      | p :: ps =>
        let w := psWaitForOne outcome p st2
        if w.2 then some (w.1, Except.ok ())
        else parallelLoop outcome maxCount fuel ps w.1
    | (NextStep.ready s, b2) =>
      let st2 := { st with build := b2 }
      if st2.build.stopped then some (st2, Except.error BuildSignal.buildStop)
      else
        let st3 := { st2 with
          build := { st2.build with currentSteps := st2.build.currentSteps ++ [s] },
          launched := st2.launched ++ [s] }
        if st3.launched.length = maxCount then
          match picks with
          | [] => none
          | p :: ps =>
            let w := psWaitForOne outcome p st3
            if w.2 then some (w.1, Except.ok ())
            else parallelLoop outcome maxCount fuel ps w.1
        else parallelLoop outcome maxCount fuel picks st3

/-- Build.processStepsInParallel, lines 458-536: register the new steps on
the queue (all steps passed in are taken as not yet registered, the
addStep branch of line 463, which appends), run the while loop, and on
normal loop exit raise BuildFailed when terminate was set (line 536). The
context manager exit of lines 511-519 is a generator function in the
source: calling it creates a generator that is never iterated, so its
drain loop and its currentSteps cleanup never execute, and the state
passes through the with-block exit unchanged. -/
def processStepsInParallel (outcome : Nat → ResultCode × List String)
    (newSteps : List Step) (maxCount : Nat) (picks : List Nat) (fuel : Nat)
    (b : Build) : Option (Build × Except BuildSignal Unit) :=
  let b2 := { b with steps := b.steps ++ newSteps }
  match parallelLoop outcome maxCount fuel picks { build := b2, launched := [] } with
  | none => none
  | some (st, Except.error sig) => some (st.build, Except.error sig)
  | some (st, Except.ok _) =>
    if st.build.terminate then some (st.build, Except.error BuildSignal.buildFailed)
    else some (st.build, Except.ok ())

/-- A ready step with all policy flags at the usual defaults of the step
class (flunkOnFailure true, everything else false), used as a concrete
input below. -/
def readyStep (n : Nat) : Step :=
  { id := n, flunkOnFailure := true, warnOnFailure := false, warnOnWarnings := false,
    flunkOnWarnings := false, haltOnFailure := false, alwaysRun := false, isReady := true }

/-- A freshly set up Build with a bound remote and nothing queued. -/
def emptyBuild : Build :=
  { steps := [], currentSteps := [], results := ResultsAttr.perStep [],
    result := ResultCode.SUCCESS, text := [], terminate := false, stopped := false,
    finished := false, remote := true, acquiringLock := none }

/-- A ready alwaysRun step. -/
def alwaysRunStep : Step := { readyStep 7 with alwaysRun := true }

/-- A stopped build whose queue holds one alwaysRun step. -/
def stoppedBuild : Build := { emptyBuild with steps := [alwaysRunStep], stopped := true }

/-- A build with one currently executing step. -/
def runningBuild : Build := { emptyBuild with currentSteps := [readyStep 1] }

/-- A build holding earlier text fragments and a pending lock wait. -/
def textBuild : Build := { emptyBuild with text := ["earlier"], acquiringLock := some 4 }

/-- A finished build. -/
def finishedBuild : Build := { emptyBuild with finished := true }

theorem severity_worst_status (a b : ResultCode) :
    severity (worst_status a b) = max (severity a) (severity b) := by
  unfold worst_status
  split <;> omega

theorem stepDone_result_eq (b : Build) (res : ResultCode) (txt : List String) (step : Step) :
    ((stepDone b res txt step).1).result =
      if res = ResultCode.SKIPPED then b.result
      else worst_status b.result (possibleOverallResult res step) := by
  by_cases h : res = ResultCode.SKIPPED <;> simp [stepDone, h]

/-- C1: for every step completion processed by stepDone with the worker
connection intact, the merged candidate and the returned termination flag
follow the policy table: FAILURE yields candidate SUCCESS by default,
WARNINGS under warnOnFailure, FAILURE under flunkOnFailure (flunkOnFailure
over warnOnFailure), with terminate exactly haltOnFailure; WARNINGS yields
SUCCESS unless warnOnWarnings (then WARNINGS), upgraded to FAILURE under
flunkOnWarnings, never terminating; EXCEPTION and RETRY pass through as
candidate and always terminate; SUCCESS and SKIPPED pass through without
termination; and the candidate of a non-SKIPPED result is merged into the
overall result by worst_status while SKIPPED leaves it untouched. -/
theorem stepDone_policy_table (b : Build) (res : ResultCode) (txt : List String)
    (step : Step) (hremote : b.remote = true) :
    (res = ResultCode.FAILURE →
       possibleOverallResult res step =
         (if step.flunkOnFailure then ResultCode.FAILURE
          else if step.warnOnFailure then ResultCode.WARNINGS
          else ResultCode.SUCCESS)
     ∧ (stepDone b res txt step).2 = step.haltOnFailure)
  ∧ (res = ResultCode.WARNINGS →
       possibleOverallResult res step =
         (if step.flunkOnWarnings then ResultCode.FAILURE
          else if step.warnOnWarnings then ResultCode.WARNINGS
          else ResultCode.SUCCESS)
     ∧ (stepDone b res txt step).2 = false)
  ∧ ((res = ResultCode.EXCEPTION ∨ res = ResultCode.RETRY) →
       possibleOverallResult res step = res ∧ (stepDone b res txt step).2 = true)
  ∧ ((res = ResultCode.SUCCESS ∨ res = ResultCode.SKIPPED) →
       possibleOverallResult res step = res ∧ (stepDone b res txt step).2 = false)
  ∧ (res ≠ ResultCode.SKIPPED →
       ((stepDone b res txt step).1).result =
         worst_status b.result (possibleOverallResult res step))
  ∧ (res = ResultCode.SKIPPED → ((stepDone b res txt step).1).result = b.result) := by
  refine ⟨?_, ?_, ?_, ?_, ?_, ?_⟩
  · rintro rfl
    constructor
    · cases hf : step.flunkOnFailure <;> cases hw : step.warnOnFailure <;>
        simp [possibleOverallResult, hf, hw]
    · show stepDoneTerminate b.remote ResultCode.FAILURE step = step.haltOnFailure
      simp [stepDoneTerminate, hremote]
  · rintro rfl
    constructor
    · cases hf : step.flunkOnWarnings <;> cases hw : step.warnOnWarnings <;>
        simp [possibleOverallResult, hf, hw]
    · show stepDoneTerminate b.remote ResultCode.WARNINGS step = false
      simp [stepDoneTerminate, hremote]
  · rintro (rfl | rfl) <;>
      exact ⟨by simp [possibleOverallResult],
             by simp [stepDone, stepDoneTerminate, hremote]⟩
  · rintro (rfl | rfl) <;>
      exact ⟨by simp [possibleOverallResult],
             by simp [stepDone, stepDoneTerminate, hremote]⟩
  · intro h
    rw [stepDone_result_eq, if_neg h]
  · intro h
    rw [stepDone_result_eq, if_pos h]

theorem stepDone_policy_table_witness :
    (stepDone emptyBuild ResultCode.FAILURE [] (readyStep 1)).2 = false := by
  have h := (stepDone_policy_table emptyBuild ResultCode.FAILURE [] (readyStep 1) rfl).1 rfl
  exact h.2.trans rfl

theorem runStepsDone_severity (cs : List Completion) : ∀ b : Build,
    severity (runStepsDone b cs).result =
      max (severity b.result) (((mergedCandidates cs).map severity).foldr max 0) := by
  induction cs with
  | nil =>
    intro b
    simp [runStepsDone, mergedCandidates]
  | cons c cs ih =>
    intro b
    rw [show runStepsDone b (c :: cs) = runStepsDone (stepDone b c.res c.txt c.step).1 cs
          from rfl,
        ih, stepDone_result_eq]
    by_cases h : c.res = ResultCode.SKIPPED
    · simp [mergedCandidates, h]
    · rw [if_neg h]
      have hm : mergedCandidates (c :: cs) =
          possibleOverallResult c.res c.step :: mergedCandidates cs := by
        simp [mergedCandidates, h]
      rw [hm, List.map_cons, List.foldr_cons, severity_worst_status]
      omega

/-- C2: starting from an overall SUCCESS, the final overall result after a
sequence of stepDone merges has exactly the severity of the worst merged
candidate among the non-SKIPPED completions (under the total order
SUCCESS < WARNINGS < FAILURE < EXCEPTION and RETRY); a SKIPPED completion
leaves the running overall result unchanged; and across any further
sequence of stepDone calls the severity of the overall result never
decreases. -/
theorem overall_result_worst_of_candidates (b : Build) (cs : List Completion)
    (r : ResultCode) (t : List String) (s : Step) :
    (b.result = ResultCode.SUCCESS →
       severity (runStepsDone b cs).result =
         ((mergedCandidates cs).map severity).foldr max 0)
  ∧ (r = ResultCode.SKIPPED → ((stepDone b r t s).1).result = b.result)
  ∧ severity b.result ≤ severity (runStepsDone b cs).result := by
  refine ⟨?_, ?_, ?_⟩
  · intro h
    rw [runStepsDone_severity, h]
    simp [severity]
  · intro h
    rw [stepDone_result_eq, if_pos h]
  · rw [runStepsDone_severity]
    omega

theorem overall_result_worst_of_candidates_witness :
    severity (runStepsDone emptyBuild [⟨ResultCode.FAILURE, [], readyStep 1⟩]).result =
      ((mergedCandidates [⟨ResultCode.FAILURE, [], readyStep 1⟩]).map severity).foldr max 0 :=
  (overall_result_worst_of_candidates emptyBuild
    [⟨ResultCode.FAILURE, [], readyStep 1⟩] ResultCode.SKIPPED [] (readyStep 1)).1 rfl

theorem firstUnavailable_none (avail : LockId → Bool) :
    ∀ ls : List LockId, firstUnavailable avail ls = none → ∀ l ∈ ls, avail l = true := by
  intro ls
  induction ls with
  | nil => simp
  | cons a ls ih =>
    intro h x hx
    rw [firstUnavailable] at h
    cases ha : avail a with
    | false => rw [ha] at h; simp at h
    | true =>
      rw [ha] at h
      simp only [if_true] at h
      rcases List.mem_cons.mp hx with rfl | hx
      · exact ha
      · exact ih h x hx

/-- C3: acquireLocks never produces partial acquisition. Whenever the
retry protocol returns at some round, the claimed set is all declared
locks or none of them; the whole set is claimed only when the scan of that
single round found every declared lock available (and the build was not
stopped), and the claims happen inside that same invocation with no
suspension point in between (acquireLocksOnce); when the stopped flag is
set at the round reached before or during a wait, the call returns with
nothing claimed. -/
theorem acquireLocks_all_or_nothing (avail : Nat → LockId → Bool) (stopped : Nat → Bool)
    (locks : List LockId) (round fuel : Nat) (claimed : List LockId) (r : Nat)
    (h : acquireLocksRun avail stopped locks round fuel = some (claimed, r)) :
    (claimed = [] ∨ claimed = locks)
  ∧ (claimed = locks ∧ locks ≠ [] → stopped r = false ∧ ∀ l ∈ locks, avail r l = true)
  ∧ (stopped r = true ∧ locks ≠ [] → claimed = []) := by
  induction fuel generalizing round with
  | zero => simp [acquireLocksRun] at h
  | succ n ih =>
    rw [acquireLocksRun] at h
    by_cases he : locks.isEmpty
    · rw [show acquireLocksOnce (avail round) (stopped round) locks =
            ([], AcquireOutcome.noLocks) from by simp [acquireLocksOnce, he]] at h
      simp only [Option.some.injEq, Prod.mk.injEq] at h
      obtain ⟨h1, h2⟩ := h
      subst h1; subst h2
      have hl : locks = [] := List.isEmpty_iff.mp he
      exact ⟨Or.inl rfl, fun hc => absurd hl hc.2, fun _ => rfl⟩
    · cases hs : stopped round with
      | true =>
        rw [show acquireLocksOnce (avail round) (stopped round) locks =
              ([], AcquireOutcome.stoppedReturn) from by simp [acquireLocksOnce, he, hs]] at h
        simp only [Option.some.injEq, Prod.mk.injEq] at h
        obtain ⟨h1, h2⟩ := h
        subst h1; subst h2
        refine ⟨Or.inl rfl, fun hc => ?_, fun _ => rfl⟩
        exact absurd hc.1.symm (by intro hl; exact hc.2 hl)
      | false =>
        cases hf : firstUnavailable (avail round) locks with
        | some l =>
          rw [show acquireLocksOnce (avail round) (stopped round) locks =
                ([], AcquireOutcome.waitingOn l) from by
                  simp [acquireLocksOnce, he, hs, hf]] at h
          exact ih (round + 1) h
        | none =>
          rw [show acquireLocksOnce (avail round) (stopped round) locks =
                (locks, AcquireOutcome.claimedAll) from by
                  simp [acquireLocksOnce, he, hs, hf]] at h
          simp only [Option.some.injEq, Prod.mk.injEq] at h
          obtain ⟨h1, h2⟩ := h
          subst h1; subst h2
          refine ⟨Or.inr rfl, fun _ => ⟨hs, firstUnavailable_none _ _ hf⟩, fun hc => ?_⟩
          rw [hs] at hc
          exact absurd hc.1 (by simp)

theorem acquireLocks_all_or_nothing_witness :
    (([5] : List LockId) = [] ∨ ([5] : List LockId) = [5]) :=
  (acquireLocks_all_or_nothing (fun _ _ => true) (fun _ => false) [5] 0 1 [5] 0 rfl).1

theorem drainForAlwaysRun_spec : ∀ ls : List Step,
    ((drainForAlwaysRun ls).1 = none →
        (drainForAlwaysRun ls).2 = [] ∧ ∀ x ∈ ls, x.alwaysRun = false)
  ∧ ∀ s, (drainForAlwaysRun ls).1 = some s →
      s.alwaysRun = true ∧
      ∃ pre, ls = pre ++ s :: (drainForAlwaysRun ls).2 ∧ ∀ x ∈ pre, x.alwaysRun = false := by
  intro ls
  induction ls with
  | nil => simp [drainForAlwaysRun]
  | cons a ls ih =>
    cases ha : a.alwaysRun with
    | true =>
      constructor
      · intro h
        rw [drainForAlwaysRun] at h
        simp [ha] at h
      · intro s h
        rw [drainForAlwaysRun] at h
        simp only [ha, if_true, Option.some.injEq] at h
        subst h
        rw [drainForAlwaysRun]
        simp only [ha, if_true]
        exact ⟨trivial, [], rfl, by simp⟩
    | false =>
      have hd : drainForAlwaysRun (a :: ls) = drainForAlwaysRun ls := by
        rw [drainForAlwaysRun, ha]
        simp
      rw [hd]
      constructor
      · intro h
        obtain ⟨h1, h2⟩ := ih.1 h
        refine ⟨h1, fun x hx => ?_⟩
        rcases List.mem_cons.mp hx with rfl | hx
        · exact ha
        · exact h2 x hx
      · intro s h
        obtain ⟨h1, pre, h2, h3⟩ := ih.2 s h
        refine ⟨h1, a :: pre,
          by rw [List.cons_append]; exact congrArg (List.cons a) h2, fun x hx => ?_⟩
        rcases List.mem_cons.mp hx with rfl | hx
        · exact ha
        · exact h3 x hx

/-- C4 counterexample: with the stopped flag set, getNextStep hands out the
queued alwaysRun step, but the step runner raises BuildStop before starting
it, so the alwaysRun step does not execute; the claim that such a step
still executes fails at this input. -/
theorem stopped_alwaysRun_not_executed :
    (getNextStep stoppedBuild).1 = some alwaysRunStep
  ∧ processStepOne (getNextStep stoppedBuild).2 alwaysRunStep ResultCode.SUCCESS []
      = Except.error BuildSignal.buildStop :=
  ⟨rfl, rfl⟩

/-- C4 amended: once terminate or stopped is set, getNextStep pops and
discards queued steps without executing them and only returns steps whose
alwaysRun flag is set (the discarded prefix holds no alwaysRun step); a
returned step still executes when only terminate is set (the runner starts
it and returns normally), but when stopped is set the runner raises
BuildStop before starting any step, so even an alwaysRun step does not
execute. -/
theorem terminating_schedules_only_alwaysRun (b : Build) (s : Step) (res : ResultCode)
    (txt : List String) :
    ((b.terminate = true ∨ b.stopped = true) →
        ∀ s2, (getNextStep b).1 = some s2 →
          s2.alwaysRun = true ∧
          ∃ pre, b.steps = pre ++ s2 :: (getNextStep b).2.steps ∧
            ∀ x ∈ pre, x.alwaysRun = false)
  ∧ (b.stopped = false → ∀ sig, processStepOne b s res txt ≠ Except.error sig)
  ∧ (b.stopped = true → processStepOne b s res txt = Except.error BuildSignal.buildStop) := by
  refine ⟨?_, ?_, ?_⟩
  · intro hterm s2 h
    have hts : (b.terminate || b.stopped) = true := by
      rcases hterm with h1 | h1 <;> simp [h1]
    by_cases he : b.steps.isEmpty
    · simp [getNextStep, he] at h
    · cases hr : b.remote with
      | false => simp [getNextStep, he, hr] at h
      | true =>
        simp only [getNextStep, he, hr, hts, Bool.not_true, Bool.false_eq_true,
          if_false, if_true] at h ⊢
        exact (drainForAlwaysRun_spec b.steps).2 s2 h
  · intro hs sig
    simp [processStepOne, hs]
  · intro hs
    simp [processStepOne, hs]

theorem terminating_schedules_only_alwaysRun_witness :
    processStepOne stoppedBuild (readyStep 1) ResultCode.SUCCESS []
      = Except.error BuildSignal.buildStop :=
  (terminating_schedules_only_alwaysRun stoppedBuild (readyStep 1)
    ResultCode.SUCCESS []).2.2 rfl

/-- C5: evaluation of processStepsInParallel at the failing input. With
maxCount 2 and three ready steps, steps 1 and 2 are launched; step 1
completes first with EXCEPTION, so the merge signals termination and the
loop breaks. Because the context manager exit of the source is a generator
function whose body never runs, step 2 (already launched and still in
flight) is never awaited: it stays in currentSteps, its completion is
never merged (the per-step result list holds only the EXCEPTION of step
1), and the call raises BuildFailed while abandoning it. No further step
was launched (step 3 is still queued), and the in-flight count never
exceeded 2, but the graceful drain promised for in-flight steps does not
happen. -/
theorem parallel_group_abandons_inflight_step :
    processStepsInParallel (fun _ => (ResultCode.EXCEPTION, []))
        [readyStep 1, readyStep 2, readyStep 3] 2 [0] 10 emptyBuild
      = some ({ emptyBuild with
                  steps := [readyStep 3],
                  currentSteps := [readyStep 2],
                  results := ResultsAttr.perStep [ResultCode.EXCEPTION],
                  result := ResultCode.EXCEPTION,
                  terminate := true },
              Except.error BuildSignal.buildFailed) := by
  rfl

/-- C6 counterexample: lostRemote with no step executing assigns the text
attribute, so a previously accumulated fragment is discarded rather than
extended; the claim that explanatory text is accumulated fails at this
input. -/
theorem lostRemote_overwrites_text :
    (lostRemote textBuild).1.text = ["lost", "remote"]
  ∧ (lostRemote textBuild).1.text ≠ ["earlier", "lost", "remote"] := by
  exact ⟨rfl, by decide⟩

/-- C6 amended: when the worker connection is lost with zero currently
executing steps, the overall result is set to RETRY, the explanatory text
is set to the lost-remote fragments (overwriting any previously
accumulated text), the stopped flag is set, and a pending lock wait is
cancelled; with one or more steps executing, each is sent an interrupt
carrying a connection-lost failure and neither the overall result nor the
stopped flag is touched by lostRemote. -/
theorem lostRemote_spec (b : Build) :
    (b.currentSteps = [] →
       (lostRemote b).1.result = ResultCode.RETRY
     ∧ (lostRemote b).1.text = ["lost", "remote"]
     ∧ (lostRemote b).1.stopped = true
     ∧ (lostRemote b).1.remote = false
     ∧ (∀ l, b.acquiringLock = some l →
          (lostRemote b).2 = [Event.cancelLockWait l]
        ∧ (lostRemote b).1.acquiringLock = none)
     ∧ (b.acquiringLock = none → (lostRemote b).2 = []))
  ∧ (b.currentSteps ≠ [] →
       (lostRemote b).1.result = b.result
     ∧ (lostRemote b).1.stopped = b.stopped
     ∧ (lostRemote b).1.remote = false
     ∧ (lostRemote b).2 =
         b.currentSteps.map
           (fun s => Event.interruptStep s.id InterruptReason.connectionLost)) := by
  constructor
  · intro hcs
    cases hA : b.acquiringLock with
    | none => simp [lostRemote, hcs, hA]
    | some l => simp [lostRemote, hcs, hA]
  · intro hcs
    have hlen : b.currentSteps.length > 0 := List.length_pos.mpr hcs
    simp [lostRemote, hlen]

theorem lostRemote_spec_witness :
    (lostRemote emptyBuild).1.result = ResultCode.RETRY :=
  ((lostRemote_spec emptyBuild).1 rfl).1

/-- C7 counterexample: a second stopBuild call on a build with a still
executing step is not free of additional effect: it publishes the
interrupt point event again and re-sends the stop interrupt to the step;
the claim that a second call has no additional effect fails at this
input. -/
theorem stopBuild_second_call_reinterrupts :
    (stopBuild (stopBuild runningBuild "why").1 "why").2
      = [Event.pointEvent "interrupt",
         Event.interruptStep 1 (InterruptReason.stopReason "why")]
  ∧ (stopBuild (stopBuild runningBuild "why").1 "why").2 ≠ [] := by
  exact ⟨rfl, by decide⟩

/-- C7 amended: stopBuild is a no-op when the build is already finished; a
single call on an unfinished build marks it stopped, sets the overall
result to EXCEPTION, clears and cancels a pending lock wait, and sends an
interrupt carrying the stop reason to every currently executing step; the
Build state is idempotent under a second call, but the second call again
publishes the interrupt point event and re-interrupts every still
executing step, so it is not free of externally visible effect. -/
theorem stopBuild_spec (b : Build) (reason : String) :
    (b.finished = true → stopBuild b reason = (b, []))
  ∧ (b.finished = false →
       (stopBuild b reason).1.stopped = true
     ∧ (stopBuild b reason).1.result = ResultCode.EXCEPTION
     ∧ (stopBuild b reason).1.acquiringLock = none
     ∧ (∀ l, b.acquiringLock = some l →
          Event.cancelLockWait l ∈ (stopBuild b reason).2)
     ∧ ∀ s ∈ b.currentSteps,
         Event.interruptStep s.id (InterruptReason.stopReason reason)
           ∈ (stopBuild b reason).2)
  ∧ (stopBuild (stopBuild b reason).1 reason).1 = (stopBuild b reason).1 := by
  refine ⟨?_, ?_, ?_⟩
  · intro hf
    simp [stopBuild, hf]
  · intro hf
    cases hA : b.acquiringLock with
    | none =>
      refine ⟨by simp [stopBuild, hf, hA], by simp [stopBuild, hf, hA],
              by simp [stopBuild, hf, hA], by simp [hA], ?_⟩
      intro s hs
      simp only [stopBuild, hf, if_false, hA, Bool.false_eq_true]
      exact List.mem_cons_of_mem _ (List.mem_map_of_mem _ hs)
    | some l =>
      refine ⟨by simp [stopBuild, hf, hA], by simp [stopBuild, hf, hA],
              by simp [stopBuild, hf, hA], ?_, ?_⟩
      · intro l2 hl2
        have h2 : l2 = l := (Option.some.inj hl2).symm
        subst h2
        simp [stopBuild, hf, hA]
      · intro s hs
        simp only [stopBuild, hf, if_false, hA, Bool.false_eq_true]
        exact List.mem_append_left _
          (List.mem_cons_of_mem _ (List.mem_map_of_mem _ hs))
  · cases hf : b.finished with
    | true => simp [stopBuild, hf]
    | false =>
      cases hA : b.acquiringLock with
      | none => simp [stopBuild, hf, hA]
      | some l => simp [stopBuild, hf, hA]

theorem stopBuild_spec_witness :
    stopBuild finishedBuild "x" = (finishedBuild, []) :=
  (stopBuild_spec finishedBuild "x").1 rfl

/-- C8: when setupBuild raises inside startBuild, the build goes directly
to the finished state with results EXCEPTION, no lock is claimed and no
step is executed, the worker is still released through the callback chain
of the completion deferred, the status buildStarted signal is never
published, and the deferred fires through its callback side with the
build (it never errbacks). -/
theorem setup_failure_finishes_with_exception (b : Build) :
    (startBuild true b).build.finished = true
  ∧ (startBuild true b).build.results = ResultsAttr.overall ResultCode.EXCEPTION
  ∧ (startBuild true b).claimedLocks = []
  ∧ (startBuild true b).executedStepIds = []
  ∧ Event.releaseSlave ∈ (startBuild true b).events
  ∧ Event.finishedSignal ∈ (startBuild true b).events
  ∧ (startBuild true b).errbacked = false
  ∧ Event.buildStarted ∉ (startBuild true b).events := by
  refine ⟨rfl, rfl, rfl, rfl, ?_, ?_, rfl, ?_⟩ <;> simp [startBuild]

/-- C9: in buildFinished, the release of the locks is scheduled through
eventually and thus runs only after every event of the current scheduling
turn: the current turn contains the finished completion signal and no
releaseLocks call, the releaseLocks call sits in the eventual queue, and
in the full observable trace every position of the finished signal comes
strictly before every position of the releaseLocks call, so an observer
reacting to the finished signal in the same evaluation turn still sees
the locks held. -/
theorem locks_released_after_finished_signal (b : Build) (txt : List String)
    (r : ResultCode) :
    Event.finishedSignal ∈ (buildFinished b txt r).2.1
  ∧ Event.releaseLocksCall ∉ (buildFinished b txt r).2.1
  ∧ Event.releaseLocksCall ∈ (buildFinished b txt r).2.2
  ∧ buildFinishedTrace b txt r = (buildFinished b txt r).2.1 ++ (buildFinished b txt r).2.2
  ∧ ∀ i j, (buildFinishedTrace b txt r).get? i = some Event.finishedSignal →
      (buildFinishedTrace b txt r).get? j = some Event.releaseLocksCall → i < j := by
  refine ⟨by simp [buildFinished], by simp [buildFinished], by simp [buildFinished],
          rfl, ?_⟩
  intro i j hi hj
  have htr : buildFinishedTrace b txt r =
      [Event.statusSetText txt, Event.statusSetResults r, Event.statusFinished,
       Event.finishedSignal, Event.releaseLocksCall] := rfl
  rw [htr] at hi hj
  have hi3 : i = 3 := by
    rcases i with _ | _ | _ | _ | _ | i <;> first | rfl | simp [List.get?] at hi
  have hj4 : j = 4 := by
    rcases j with _ | _ | _ | _ | _ | j <;> first | rfl | simp [List.get?] at hj
  omega

theorem locks_released_after_finished_signal_witness : (3 : Nat) < 4 :=
  (locks_released_after_finished_signal emptyBuild [] ResultCode.SUCCESS).2.2.2.2 3 4 rfl rfl

/-- C10: while a build is running, the results attribute is the ordered
per-step result list, one code appended by each stepDone call starting
from the empty list set up by setupBuild; buildFinished unconditionally
overwrites the results attribute with the single overall result code, for
every prior value of the attribute, so the per-step list is no longer
reachable through it after the build finishes. -/
theorem results_list_overwritten (b : Build) (txt : List String) (r res : ResultCode)
    (t2 : List String) (s : Step) (l : List ResultCode) :
    (setupBuild b).results = ResultsAttr.perStep []
  ∧ (b.results = ResultsAttr.perStep l →
      ((stepDone b res t2 s).1).results = ResultsAttr.perStep (l ++ [res]))
  ∧ ((buildFinished b txt r).1).results = ResultsAttr.overall r := by
  refine ⟨rfl, ?_, rfl⟩
  intro h
  simp only [stepDone]
  split <;> simp [appendStepResult, h]

theorem results_list_overwritten_witness :
    ((stepDone emptyBuild ResultCode.SUCCESS [] (readyStep 1)).1).results
      = ResultsAttr.perStep [ResultCode.SUCCESS] :=
  (results_list_overwritten emptyBuild [] ResultCode.SUCCESS ResultCode.SUCCESS []
    (readyStep 1) []).2.1 rfl

end CommonBuildbot
